import Mathlib

/-!
# Verification of the Joker card-betting game core

A shallow embedding of the game state machine implemented in `init.py` and
`playapi.py` (a simplified card-betting game: join, deal, bet, fold,
showdown), together with theorems settling the specification claims.

Modelling conventions:
* The `models.py` module (classes `Card`, `Player`, `Game` and the player
  methods `place_bet` / `fold`) is imported by the source but absent from the
  repository snapshot; those definitions are modelled from the spec and are
  marked `Modelled from the spec:` in their doc comments.
* Monetary amounts (balances, bets, pot) are modelled as `Int`.  The Python
  code uses floats, but every claim is an exact accounting identity in which
  only the additive structure of the amounts matters.
* `random.shuffle` is modelled by passing the shuffling function explicitly;
  theorems that depend on it assume the shuffle permutes the deck.
* The network fetch of cards at join time is modelled by passing the fetched
  cards as an argument to `join_game`.
* Each endpoint returns the resulting game state together with
  `Except Err Output`.  An `Err` result corresponds to an `HTTPException`
  (or, for `indexError` / `zeroDivisionError`, an uncaught Python exception);
  the returned state records any mutations performed before the raise,
  matching Python's behaviour on a global mutable game object.
-/

/-- Card ranks: 2–10, J, Q, K, A — `ranks` in `init.py`. -/
inductive Rank where
  | r2 | r3 | r4 | r5 | r6 | r7 | r8 | r9 | r10 | rJ | rQ | rK | rA
deriving DecidableEq

/-- Card suits — `suits` in `init.py`. -/
inductive Suit where
  | hearts | diamonds | clubs | spades
deriving DecidableEq

/-- The rank string as it appears in the Python deck. -/
def rankStr : Rank → String
  | .r2 => "2" | .r3 => "3" | .r4 => "4" | .r5 => "5" | .r6 => "6"
  | .r7 => "7" | .r8 => "8" | .r9 => "9" | .r10 => "10"
  | .rJ => "J" | .rQ => "Q" | .rK => "K" | .rA => "A"

/-- The suit string as it appears in the Python deck. -/
def suitStr : Suit → String
  | .hearts => "hearts" | .diamonds => "diamonds"
  | .clubs => "clubs" | .spades => "spades"

/-- The showdown scoring table `rank_map` of `compare_cards` in `playapi.py`
(2=2 … 10=10, J=11, Q=12, K=13, A=14).  It is total here because `Rank` is
exactly the key set of the Python dict. -/
def rank_map : Rank → Nat
  | .r2 => 2 | .r3 => 3 | .r4 => 4 | .r5 => 5 | .r6 => 6
  | .r7 => 7 | .r8 => 8 | .r9 => 9 | .r10 => 10
  | .rJ => 11 | .rQ => 12 | .rK => 13 | .rA => 14

/-- Modelled from the spec: class `Card` of the absent `models.py` — an
immutable (rank, suit) pair with a derived display name, as constructed in
`init.py` (`Card(rank=rank, suit=suit, name=f"...")`). -/
structure Card where
  rank : Rank
  suit : Suit
  name : String
deriving DecidableEq

/-- Modelled from the spec: class `Player` of the absent `models.py` — name,
hand, numeric balance starting at the fixed default 1000, accumulated
`current_bet`, and the active/folded flag (spec §3). -/
structure Player where
  name : String
  cards : List Card := []
  balance : Int := 1000
  current_bet : Int := 0
  is_active : Bool := true
deriving DecidableEq

/-- Modelled from the spec: `Player.place_bet` of the absent `models.py`
(spec §4.2): rejects a non-positive or over-balance amount with no state
change; on success debits `balance` and credits `current_bet` by the amount
atomically.  Returns the Python `(success, ...)` flag with the updated
player. -/
def Player.place_bet (p : Player) (amount : Int) : Bool × Player :=
  if amount ≤ 0 ∨ p.balance < amount then (false, p)
  else (true, { p with balance := p.balance - amount,
                       current_bet := p.current_bet + amount })

/-- Modelled from the spec: `Player.fold` of the absent `models.py`
(spec §4.2): sets `is_active` to false. -/
def Player.fold (p : Player) : Player := { p with is_active := false }

/-- Modelled from the spec: class `Game` of the absent `models.py` — players
in join order, remaining deck, pot, turn order and index, activity flag, with
the empty/inactive defaults of a fresh `Game()` (spec §3). -/
structure Game where
  players : List Player := []
  deck : List Card := []
  pot : Int := 0
  current_turn_order : List String := []
  current_turn_index : Nat := 0
  is_active : Bool := false
deriving DecidableEq

/-- The fresh game `Game()` created at module load / by `start_game`. -/
def emptyGame : Game := {}

/-- Error outcomes: each `HTTPException` raised in `playapi.py`, plus the
uncaught Python exceptions reachable in the code (`IndexError` from list
indexing / popping an empty list, `ZeroDivisionError` from `% 0`,
`AttributeError` from using a `None` winner). -/
inductive Err where
  | gameAlreadyStarted
  | nameAlreadyExists
  | needTwoPlayers
  | gameNotActive
  | playerNotFoundOrInactive
  | notYourTurn
  | invalidBet
  | notEnoughPlayers
  | indexError
  | zeroDivisionError
  | attributeError
deriving DecidableEq

/-- Success payloads of the endpoints in `playapi.py`. -/
inductive Output where
  | newGame
  | joined (players : List String)
  | started (current_turn : String)
  | betPlaced (current_pot : Int)
  | folded
  | winner (name : String) (balance : Int)
deriving DecidableEq

deriving instance DecidableEq for Except

/-- `next((p for p in game.players if p.name == name), None)`. -/
def findPlayer (g : Game) (name : String) : Option Player :=
  g.players.find? (fun p => p.name == name)

/-- Apply `f` to the first element satisfying `pred`, leaving the rest
unchanged — Python's mutation through the reference returned by `next`. -/
def updateFirst (pred : α → Bool) (f : α → α) : List α → List α
  | [] => []
  | x :: xs => if pred x then f x :: xs else x :: updateFirst pred f xs

/-- The 52-card deck built in `init.py` (suits outer, ranks inner). -/
def allRanks : List Rank :=
  [.r2, .r3, .r4, .r5, .r6, .r7, .r8, .r9, .r10, .rJ, .rQ, .rK, .rA]

/-- The four suits in the order of `init.py`. -/
def allSuits : List Suit := [.hearts, .diamonds, .clubs, .spades]

/-- `[Card(rank=rank, suit=suit, name=f"{rank} of {suit}") for suit in suits
for rank in ranks]` (braces shown only in this comment). -/
def fullDeck : List Card :=
  (allSuits.map (fun s => allRanks.map
    (fun r => Card.mk r s (rankStr r ++ " of " ++ suitStr s)))).flatten

/-- Python `list.pop()`: removes and returns the last element; `none` models
the `IndexError` on an empty list. -/
def popCard (deck : List Card) : Option (Card × List Card) :=
  match deck.getLast? with
  | none => none
  | some c => some (c, deck.dropLast)

/-- The dealing loop of `initialize_game`:
`player.cards = [game.deck.pop(), game.deck.pop()]` for each player in join
order.  Returns the updated players, the remaining deck, and an error flag
modelling an `IndexError` raised mid-loop (in which case the earlier players
keep their newly dealt hands and any card already popped stays consumed,
as with Python's mutable deck). -/
def dealLoop : List Player → List Card → List Player × List Card × Bool
  | [], deck => ([], deck, false)
  | p :: ps, deck =>
    match popCard deck with
    | none => (p :: ps, deck, true)
    | some (c1, d1) =>
      match popCard d1 with
      | none => (p :: ps, d1, true)
      | some (c2, d2) =>
        let r := dealLoop ps d2
        ({ p with cards := [c1, c2] } :: r.1, r.2.1, r.2.2)

/-- `initialize_game` of `init.py`: build the 52-card deck, shuffle it
(`sh` models `random.shuffle`), deal two cards to each player, fix the turn
order to join order, reset the turn index, activate the game.  The `Bool`
flag reports an `IndexError` during dealing (deck exhausted), in which case
the turn order and activity flag are left untouched. -/
def init_game (sh : List Card → List Card) (g : Game) : Game × Bool :=
  if (dealLoop g.players (sh fullDeck)).2.2 then
    ({ g with
        deck := (dealLoop g.players (sh fullDeck)).2.1,
        players := (dealLoop g.players (sh fullDeck)).1 },
     true)
  else
    ({ g with
        deck := (dealLoop g.players (sh fullDeck)).2.1,
        players := (dealLoop g.players (sh fullDeck)).1,
        current_turn_order := (dealLoop g.players (sh fullDeck)).1.map Player.name,
        current_turn_index := 0,
        is_active := true },
     false)

/-- `POST /start_game`: `game = Game()`. -/
def start_game (_g : Game) : Game × Except Err Output :=
  (emptyGame, .ok .newGame)

/-- `POST /join_game`: rejected if the game is active or the name exists;
otherwise appends a new `Player` with default balance and the cards fetched
from the dealer API (modelled by the `cards` argument). -/
def join_game (g : Game) (name : String) (cards : List Card) :
    Game × Except Err Output :=
  if g.is_active then (g, .error .gameAlreadyStarted)
  else if g.players.any (fun p => p.name == name) then
    (g, .error .nameAlreadyExists)
  else
    ({ g with players := g.players ++ [{ name := name, cards := cards }] },
     .ok (.joined ((g.players ++ [({ name := name, cards := cards } : Player)]).map
       Player.name)))

/-- `POST /start_and_play`: needs ≥ 2 players and an inactive game, then runs
`initialize_game` and reports the first player of the new turn order. -/
def start_and_play (sh : List Card → List Card) (g : Game) :
    Game × Except Err Output :=
  if g.players.length < 2 then (g, .error .needTwoPlayers)
  else if g.is_active then (g, .error .gameAlreadyStarted)
  else if (init_game sh g).2 then ((init_game sh g).1, .error .indexError)
  else
    match (init_game sh g).1.current_turn_order with
    | [] => ((init_game sh g).1, .error .indexError)
    | t :: _ => ((init_game sh g).1, .ok (.started t))

/-- `POST /place_bet`: requires an active game, a known active player, and
that it is that player's turn (`current_turn_order[current_turn_index]`,
whose out-of-range indexing is the `indexError` case); delegates amount
validation to `Player.place_bet`; on success adds the amount to the pot and
rotates the turn index by `(i + 1) % len(order)`. -/
def place_bet (g : Game) (name : String) (amount : Int) :
    Game × Except Err Output :=
  if !g.is_active then (g, .error .gameNotActive)
  else
    match findPlayer g name with
    | none => (g, .error .playerNotFoundOrInactive)
    | some p =>
      if !p.is_active then (g, .error .playerNotFoundOrInactive)
      else
        match g.current_turn_order[g.current_turn_index]? with
        | none => (g, .error .indexError)
        | some t =>
          if t ≠ name then (g, .error .notYourTurn)
          else if !(p.place_bet amount).1 then (g, .error .invalidBet)
          else
            ({ g with
                players := updateFirst (fun q => q.name == name)
                  (fun q => (q.place_bet amount).2) g.players,
                pot := g.pot + amount,
                current_turn_index :=
                  (g.current_turn_index + 1) % g.current_turn_order.length },
             .ok (.betPlaced (g.pot + amount)))

/-- `POST /fold`: no check of `game.is_active`.  Requires a known active
player; marks it inactive; if exactly one active player remains, pays that
player the whole pot and deactivates the game, otherwise rotates the turn
index (raising `ZeroDivisionError` when the turn order is empty, with the
fold mutation already applied).  Paying "every active player" is the
source's `winner = active_players[0]` update: exactly one player is active
in that branch. -/
def fold_player (g : Game) (name : String) : Game × Except Err Output :=
  match findPlayer g name with
  | none => (g, .error .playerNotFoundOrInactive)
  | some p =>
    if !p.is_active then (g, .error .playerNotFoundOrInactive)
    else
      match (updateFirst (fun q => q.name == name) Player.fold g.players).filter
          (fun q => q.is_active) with
      | [w] =>
        ({ g with
            players := (updateFirst (fun q => q.name == name) Player.fold
              g.players).map (fun q =>
                if q.is_active then { q with balance := q.balance + g.pot }
                else q),
            pot := 0,
            is_active := false },
         .ok (.winner w.name (w.balance + g.pot)))
      | _ =>
        if g.current_turn_order.length = 0 then
          ({ g with
              players := updateFirst (fun q => q.name == name) Player.fold
                g.players },
           .error .zeroDivisionError)
        else
          ({ g with
              players := updateFirst (fun q => q.name == name) Player.fold
                g.players,
              current_turn_index :=
                (g.current_turn_index + 1) % g.current_turn_order.length },
           .ok .folded)

/-- Showdown score: `sum(rank_map[card.rank] for card in player.cards)`. -/
def score (p : Player) : Nat := (p.cards.map (fun c => rank_map c.rank)).sum

/-- The winner-selection loop of `compare_cards` (`best_score = -1`; replace
on strictly greater score).  It walks the full players list guarded on
`is_active`, which is the same traversal as the source's loop over
`active_players` (filtering preserves order), and returns the position of
the winning player object within `game.players` — the object Python
mutates through the `winner` reference. -/
def bestIdxAux : List Player → Nat → Int → Option (Nat × Player) →
    Option (Nat × Player)
  | [], _, _, acc => acc
  | p :: ps, i, best, acc =>
    if p.is_active = true ∧ best < (score p : Int) then
      bestIdxAux ps (i + 1) (score p : Int) (some (i, p))
    else
      bestIdxAux ps (i + 1) best acc

/-- `POST /compare_cards`: requires an active game with ≥ 2 active players;
pays the pot to the first active player with the strictly highest score and
deactivates the game.  The `attributeError` branch models
`winner.balance` on a `None` winner (unreachable when an active player
exists). -/
def compare_cards (g : Game) : Game × Except Err Output :=
  if !g.is_active then (g, .error .gameNotActive)
  else if (g.players.filter (fun p => p.is_active)).length < 2 then
    (g, .error .notEnoughPlayers)
  else
    match bestIdxAux g.players 0 (-1) none with
    | none => (g, .error .attributeError)
    | some (j, p) =>
      ({ g with
          players := g.players.set j { p with balance := p.balance + g.pot },
          pot := 0,
          is_active := false },
       .ok (.winner p.name (p.balance + g.pot)))

/-- The external operations of the core, as invoked by the session
controller; the shuffle function and the dealer-fetched cards are the
operation's environment inputs. -/
inductive Cmd where
  | start_game
  | join (name : String) (cards : List Card)
  | start_and_play (sh : List Card → List Card)
  | bet (name : String) (amount : Int)
  | fold (name : String)
  | compare

/-- One endpoint call: resulting state and outcome. -/
def stepEv (g : Game) : Cmd → Game × Except Err Output
  | .start_game => start_game g
  | .join n cs => join_game g n cs
  | .start_and_play sh => start_and_play sh g
  | .bet n a => place_bet g n a
  | .fold n => fold_player g n
  | .compare => compare_cards g

/-- The state after one endpoint call. -/
def step1 (g : Game) (c : Cmd) : Game := (stepEv g c).1

/-- Run a sequence of endpoint calls. -/
def run : Game → List Cmd → Game
  | g, [] => g
  | g, c :: cs => run (step1 g c) cs

/-- States reachable from the fresh game through endpoint calls. -/
def Reachable (g : Game) : Prop := ∃ cs, run emptyGame cs = g

/-- Did this call settle the round (return a `winner` payload)? -/
def settlesB (g : Game) (c : Cmd) : Bool :=
  match (stepEv g c).2 with
  | .ok (.winner _ _) => true
  | _ => false

/-- Is this the reset endpoint? -/
def isStartGameCmd : Cmd → Bool
  | .start_game => true
  | _ => false

/-- No call in the list settles the round or resets the game. -/
def noMidSettleB : Game → List Cmd → Bool
  | _, [] => true
  | g, c :: cs => !isStartGameCmd c && !settlesB g c && noMidSettleB (step1 g c) cs

/-- The amount of this call when it is an accepted bet, otherwise 0. -/
def betAccepted (g : Game) (c : Cmd) : Int :=
  match c, (stepEv g c).2 with
  | .bet _ a, .ok (.betPlaced _) => a
  | _, _ => 0

/-- Sum of the amounts of all accepted bets along a run. -/
def sumAcceptedBets : Game → List Cmd → Int
  | _, [] => 0
  | g, c :: cs => betAccepted g c + sumAcceptedBets (step1 g c) cs

/-- Is this call a successful bet or a successful non-settling fold? -/
def rotStepB (g : Game) (c : Cmd) : Bool :=
  match c, (stepEv g c).2 with
  | .bet _ _, .ok (.betPlaced _) => true
  | .fold _, .ok .folded => true
  | _, _ => false

/-- Every call in the list is a successful bet or non-settling fold. -/
def rotStepsB : Game → List Cmd → Bool
  | _, [] => true
  | g, c :: cs => rotStepB g c && rotStepsB (step1 g c) cs

/-- Turn-validity invariant of the spec: while the game is active the turn
index is a valid position in the turn order. -/
def InvTurn (g : Game) : Prop :=
  g.is_active = true → g.current_turn_index < g.current_turn_order.length

/-! ## Basic lemmas about `place_bet` -/

theorem place_bet_error_state (g : Game) (n : String) (a : Int) :
    ∀ e : Err, (place_bet g n a).2 = .error e → (place_bet g n a).1 = g := by
  unfold place_bet
  split
  · intro e h; rfl
  · split
    · intro e h; rfl
    · split
      · intro e h; rfl
      · split
        · intro e h; rfl
        · split
          · intro e h; rfl
          · split
            · intro e h; rfl
            · intro e h; simp at h

theorem place_bet_ok_state (g : Game) (n : String) (a : Int) (out : Output) :
    (place_bet g n a).2 = .ok out →
    (place_bet g n a).1 =
      { g with
          players := updateFirst (fun q => q.name == n)
            (fun q => (q.place_bet a).2) g.players,
          pot := g.pot + a,
          current_turn_index :=
            (g.current_turn_index + 1) % g.current_turn_order.length } ∧
    out = .betPlaced (g.pot + a) ∧
    g.is_active = true ∧
    g.current_turn_order[g.current_turn_index]? = some n := by
  unfold place_bet
  split
  · intro h; simp at h
  · rename_i hact
    split
    · intro h; simp at h
    · rename_i p hfind
      split
      · intro h; simp at h
      · split
        · intro h; simp at h
        · rename_i t hturn
          split
          · intro h; simp at h
          · split
            · intro h; simp at h
            · rename_i hne hbet
              intro h
              simp only [] at h
              refine ⟨rfl, ?_, ?_, ?_⟩
              · cases h; rfl
              · simpa using hact
              · simp only [ne_eq, not_not] at hne
                rw [hturn, hne]

/-! ## Basic lemmas about `fold_player` -/

theorem fold_player_error_notfound (g : Game) (n : String) :
    (fold_player g n).2 = .error .playerNotFoundOrInactive →
    (fold_player g n).1 = g := by
  unfold fold_player
  split
  · intro _; rfl
  · split
    · intro _; rfl
    · split
      · intro h; simp at h
      · split
        · intro h; simp at h
        · intro h; simp at h

theorem fold_player_notfound_iff (g : Game) (n : String) :
    (fold_player g n).2 = .error .playerNotFoundOrInactive ↔
    (∀ p, findPlayer g n = some p → p.is_active = false) := by
  unfold fold_player
  split
  · rename_i hfind
    simp only [true_iff]
    intro p hp; rw [hfind] at hp; cases hp
  · rename_i p hfind
    split
    · rename_i hinact
      simp only [true_iff]
      intro q hq; rw [hfind] at hq; cases hq
      simpa using hinact
    · rename_i hq
      constructor
      · intro h
        split at h
        · simp at h
        · split at h <;> simp at h
      · intro h
        have := h p hfind
        simp [this] at hq

theorem fold_player_folded_state (g : Game) (n : String) :
    (fold_player g n).2 = .ok .folded →
    (fold_player g n).1 =
      { g with
          players := updateFirst (fun q => q.name == n) Player.fold g.players,
          current_turn_index :=
            (g.current_turn_index + 1) % g.current_turn_order.length } ∧
    0 < g.current_turn_order.length := by
  unfold fold_player
  split
  · intro h; simp at h
  · split
    · intro h; simp at h
    · split
      · intro h; simp at h
      · split
        · intro h; simp at h
        · rename_i hlen
          intro _
          exact ⟨rfl, Nat.pos_of_ne_zero hlen⟩

theorem fold_player_winner_state (g : Game) (n : String) (w : String) (b : Int) :
    (fold_player g n).2 = .ok (.winner w b) →
    ∃ wp : Player,
      (updateFirst (fun q => q.name == n) Player.fold g.players).filter
        (fun q => q.is_active) = [wp] ∧
      w = wp.name ∧ b = wp.balance + g.pot ∧
      (fold_player g n).1 =
        { g with
            players := (updateFirst (fun q => q.name == n) Player.fold
              g.players).map (fun q =>
                if q.is_active then { q with balance := q.balance + g.pot }
                else q),
            pot := 0,
            is_active := false } := by
  unfold fold_player
  split
  · intro h; simp at h
  · split
    · intro h; simp at h
    · split
      · rename_i wp hfilter
        intro h
        simp only [Except.ok.injEq, Output.winner.injEq] at h
        exact ⟨wp, hfilter, h.1.symm, h.2.symm, rfl⟩
      · split
        · intro h; simp at h
        · intro h; simp at h

/-! ## Basic lemmas about the remaining endpoints -/

theorem join_game_is_active (g : Game) (n : String) (cs : List Card) :
    (join_game g n cs).1.is_active = g.is_active := by
  unfold join_game
  split
  · rfl
  · split <;> rfl

theorem join_game_pot (g : Game) (n : String) (cs : List Card) :
    (join_game g n cs).1.pot = g.pot := by
  unfold join_game
  split
  · rfl
  · split <;> rfl

theorem init_game_pot (sh : List Card → List Card) (g : Game) :
    (init_game sh g).1.pot = g.pot := by
  unfold init_game
  split <;> rfl

theorem init_game_ok_state (sh : List Card → List Card) (g : Game) :
    (init_game sh g).2 = false →
    (init_game sh g).1 =
      { g with
          deck := (dealLoop g.players (sh fullDeck)).2.1,
          players := (dealLoop g.players (sh fullDeck)).1,
          current_turn_order :=
            (dealLoop g.players (sh fullDeck)).1.map Player.name,
          current_turn_index := 0,
          is_active := true } := by
  unfold init_game
  split
  · intro h; simp at h
  · intro _; rfl

theorem start_and_play_pot (sh : List Card → List Card) (g : Game) :
    (start_and_play sh g).1.pot = g.pot := by
  unfold start_and_play
  split
  · rfl
  · split
    · rfl
    · split
      · exact init_game_pot sh g
      · split <;> exact init_game_pot sh g

theorem start_and_play_ok (sh : List Card → List Card) (g : Game) (out : Output) :
    (start_and_play sh g).2 = .ok out →
    2 ≤ g.players.length ∧ g.is_active = false ∧
    (init_game sh g).2 = false ∧
    (start_and_play sh g).1 = (init_game sh g).1 ∧
    ∃ t rest, (init_game sh g).1.current_turn_order = t :: rest ∧
      out = .started t := by
  unfold start_and_play
  split
  · intro h; simp at h
  · rename_i hlen
    split
    · intro h; simp at h
    · rename_i hact
      split
      · intro h; simp at h
      · rename_i hinit
        split
        · intro h; simp at h
        · rename_i t rest horder
          intro h
          simp only [Except.ok.injEq] at h
          refine ⟨by omega, by simpa using hact, by simpa using hinit,
            rfl, t, rest, horder, h.symm⟩

theorem compare_cards_error_state (g : Game) (e : Err) :
    (compare_cards g).2 = .error e → (compare_cards g).1 = g := by
  unfold compare_cards
  split
  · intro _; rfl
  · split
    · intro _; rfl
    · split
      · intro _; rfl
      · intro h; simp at h

theorem compare_cards_ok (g : Game) (out : Output) :
    (compare_cards g).2 = .ok out →
    g.is_active = true ∧
    2 ≤ (g.players.filter (fun p => p.is_active)).length ∧
    ∃ j p, bestIdxAux g.players 0 (-1) none = some (j, p) ∧
      out = .winner p.name (p.balance + g.pot) ∧
      (compare_cards g).1 =
        { g with
            players := g.players.set j { p with balance := p.balance + g.pot },
            pot := 0,
            is_active := false } := by
  unfold compare_cards
  split
  · intro h; simp at h
  · rename_i hact
    split
    · intro h; simp at h
    · rename_i hlen
      split
      · intro h; simp at h
      · rename_i j p hbest
        intro h
        simp only [Except.ok.injEq] at h
        exact ⟨by simpa using hact, by omega, j, p, hbest, h.symm, rfl⟩

/-! ## Lemmas about `updateFirst` and filtering -/

theorem length_updateFirst (pred : α → Bool) (f : α → α) (l : List α) :
    (updateFirst pred f l).length = l.length := by
  induction l with
  | nil => rfl
  | cons x xs ih =>
    unfold updateFirst
    split <;> simp [ih]

theorem map_updateFirst (pred : α → Bool) (f : α → α) (h1 : α → β) (l : List α)
    (hf : ∀ x, pred x = true → h1 (f x) = h1 x) :
    (updateFirst pred f l).map h1 = l.map h1 := by
  induction l with
  | nil => rfl
  | cons x xs ih =>
    unfold updateFirst
    split
    · rename_i hx
      simp [hf x hx]
    · simp [ih]

theorem getElem?_updateFirst (pred : α → Bool) (f : α → α) (l : List α)
    (k : Nat) :
    (updateFirst pred f l)[k]? = l[k]? ∨
    ∃ x, l[k]? = some x ∧ pred x = true ∧
      (updateFirst pred f l)[k]? = some (f x) := by
  induction l generalizing k with
  | nil => left; rfl
  | cons x xs ih =>
    unfold updateFirst
    split
    · rename_i hx
      cases k with
      | zero => right; exact ⟨x, by simp, hx, by simp⟩
      | succ k => left; rfl
    · cases k with
      | zero => left; simp
      | succ k => simpa using ih k

theorem find?_cons_true {p : α → Bool} {x : α} (l : List α)
    (h : p x = true) : List.find? p (x :: l) = some x := by
  simp [List.find?_cons, h]

theorem find?_cons_false {p : α → Bool} {x : α} (l : List α)
    (h : p x = false) : List.find? p (x :: l) = List.find? p l := by
  simp [List.find?_cons, h]

theorem filter_updateFirst_fold (n : String) (l : List Player) (p : Player)
    (hfind : l.find? (fun q => q.name == n) = some p)
    (hact : p.is_active = true) :
    ((updateFirst (fun q => q.name == n) Player.fold l).filter
      (fun q => q.is_active)).length + 1 =
    (l.filter (fun q => q.is_active)).length := by
  induction l with
  | nil => simp at hfind
  | cons x xs ih =>
    unfold updateFirst
    by_cases hx : (x.name == n) = true
    · rw [find?_cons_true xs hx] at hfind
      cases hfind
      rw [if_pos hx]
      simp [List.filter_cons, hact, Player.fold]
    · rw [find?_cons_false xs (by simpa using hx)] at hfind
      rw [if_neg hx]
      by_cases hxa : x.is_active = true
      · simp only [List.filter_cons, hxa, if_pos, List.length_cons]
        have := ih hfind
        omega
      · simp only [List.filter_cons, hxa]
        simpa using ih hfind

theorem filter_eq_singleton_pos (pr : α → Bool) (l : List α) (w : α)
    (h : l.filter pr = [w]) :
    ∃ j : Nat, l[j]? = some w ∧ pr w = true ∧
      ∀ (k : Nat) (y : α), k ≠ j → l[k]? = some y → pr y = false := by
  induction l generalizing w with
  | nil => simp at h
  | cons x xs ih =>
    rw [List.filter_cons] at h
    by_cases hx : pr x = true
    · rw [if_pos hx] at h
      have hxw : x = w := by
        have := congrArg (fun t => t.head?) h
        simpa using this
      have hnil : xs.filter pr = [] := by
        have := congrArg (fun t => t.tail) h
        simpa using this
      subst hxw
      refine ⟨0, by simp, hx, ?_⟩
      intro k y hk hky
      cases k with
      | zero => exact absurd rfl hk
      | succ k =>
        simp only [List.getElem?_cons_succ] at hky
        have hy : y ∈ xs := by
          exact List.getElem?_mem hky
        have := List.filter_eq_nil_iff.mp hnil y hy
        simpa using this
    · rw [if_neg hx] at h
      obtain ⟨j, hj, hw, hrest⟩ := ih w h
      refine ⟨j + 1, by simpa using hj, hw, ?_⟩
      intro k y hk hky
      cases k with
      | zero =>
        simp only [List.getElem?_cons_zero] at hky
        cases hky
        simpa using hx
      | succ k =>
        simp only [List.getElem?_cons_succ] at hky
        exact hrest k y (by omega) hky

/-! ## The showdown winner-selection loop -/

/-- `p` is the first active player attaining the maximal score in `l`. -/
def IsFirstMax (l : List Player) (j : Nat) (p : Player) : Prop :=
  l[j]? = some p ∧ p.is_active = true ∧
  (∀ (k : Nat) (q : Player), l[k]? = some q → q.is_active = true →
    score q ≤ score p) ∧
  (∀ (k : Nat) (q : Player), k < j → l[k]? = some q → q.is_active = true →
    score q < score p)

theorem bestIdxAux_spec (full : List Player) :
    ∀ (l : List Player) (i : Nat) (best : Int) (acc : Option (Nat × Player)),
    (∀ k : Nat, l[k]? = full[i + k]?) →
    (acc = none →
      best = -1 ∧
      ∀ (k : Nat) (q : Player), k < i → full[k]? = some q →
        q.is_active = false) →
    (∀ (j : Nat) (p : Player), acc = some (j, p) →
      j < i ∧ full[j]? = some p ∧ p.is_active = true ∧
      best = (score p : Int) ∧
      (∀ (k : Nat) (q : Player), k < i → full[k]? = some q →
        q.is_active = true → (score q : Int) ≤ best) ∧
      (∀ (k : Nat) (q : Player), k < j → full[k]? = some q →
        q.is_active = true → (score q : Int) < best)) →
    (bestIdxAux l i best acc = none →
      ∀ (k : Nat) (q : Player), full[k]? = some q → q.is_active = false) ∧
    (∀ (j : Nat) (p : Player), bestIdxAux l i best acc = some (j, p) →
      IsFirstMax full j p) := by
  intro l
  induction l with
  | nil =>
    intro i best acc hshift hnone hsome
    constructor
    · intro hres k q hk
      rw [bestIdxAux] at hres
      subst hres
      by_cases hki : k < i
      · exact (hnone rfl).2 k q hki hk
      · exfalso
        have : full[k]? = ([] : List Player)[k - i]? := by
          rw [hshift (k - i)]
          congr 1
          omega
        rw [hk] at this
        simp at this
    · intro j p hres
      rw [bestIdxAux] at hres
      obtain ⟨hji, hfj, hpact, hbest, hle, hlt⟩ := hsome j p hres
      refine ⟨hfj, hpact, ?_, ?_⟩
      · intro k q hk hq
        by_cases hki : k < i
        · have := hle k q hki hk hq
          rw [hbest] at this
          exact_mod_cast this
        · exfalso
          have : full[k]? = ([] : List Player)[k - i]? := by
            rw [hshift (k - i)]
            congr 1
            omega
          rw [hk] at this
          simp at this
      · intro k q hkj hk hq
        have := hlt k q hkj hk hq
        rw [hbest] at this
        exact_mod_cast this
  | cons x xs ih =>
    intro i best acc hshift hnone hsome
    have hfi : full[i]? = some x := by
      have := hshift 0
      simpa using this.symm
    have hshift1 : ∀ k : Nat, xs[k]? = full[(i + 1) + k]? := by
      intro k
      have := hshift (k + 1)
      simpa [Nat.add_assoc, Nat.add_comm 1 k] using this
    rw [bestIdxAux]
    split
    · rename_i hguard
      obtain ⟨hxact, hxbest⟩ := hguard
      apply ih (i + 1) ((score x : Int)) (some (i, x)) hshift1
      · intro h; cases h
      · intro j p hp
        cases hp
        refine ⟨by omega, hfi, hxact, rfl, ?_, ?_⟩
        · intro k q hki hk hq
          by_cases hk2 : k < i
          · rcases hacc : acc with _ | ⟨j0, p0⟩
            · have := (hnone hacc).2 k q hk2 hk
              rw [this] at hq; cases hq
            · obtain ⟨_, _, _, hbest0, hle0, _⟩ := hsome j0 p0 hacc
              have := hle0 k q hk2 hk hq
              omega
          · have hki2 : k = i := by omega
            subst hki2
            rw [hfi] at hk
            cases hk
            omega
        · intro k q hki hk hq
          rcases hacc : acc with _ | ⟨j0, p0⟩
          · have := (hnone hacc).2 k q hki hk
            rw [this] at hq; cases hq
          · obtain ⟨_, _, _, hbest0, hle0, _⟩ := hsome j0 p0 hacc
            have := hle0 k q hki hk hq
            omega
    · rename_i hguard
      apply ih (i + 1) best acc hshift1
      · intro hacc
        obtain ⟨hbest, hpre⟩ := hnone hacc
        refine ⟨hbest, ?_⟩
        intro k q hki hk
        by_cases hk2 : k < i
        · exact hpre k q hk2 hk
        · have hki2 : k = i := by omega
          subst hki2
          rw [hfi] at hk
          injection hk with hk2
          subst hk2
          by_cases hqa : x.is_active = true
          · exfalso
            apply hguard
            refine ⟨hqa, ?_⟩
            rw [hbest]
            have : (0 : Int) ≤ (score x : Int) := Int.ofNat_nonneg _
            omega
          · simpa using hqa
      · intro j p hacc
        obtain ⟨hji, hfj, hpact, hbest, hle, hlt⟩ := hsome j p hacc
        refine ⟨by omega, hfj, hpact, hbest, ?_, hlt⟩
        intro k q hki hk hq
        by_cases hk2 : k < i
        · exact hle k q hk2 hk hq
        · have hki2 : k = i := by omega
          subst hki2
          rw [hfi] at hk
          injection hk with hk2
          subst hk2
          by_cases hlt2 : best < (score x : Int)
          · exact absurd ⟨hq, hlt2⟩ hguard
          · omega

theorem bestIdxAux_isFirstMax (l : List Player) (j : Nat) (p : Player)
    (h : bestIdxAux l 0 (-1) none = some (j, p)) : IsFirstMax l j p := by
  refine (bestIdxAux_spec l l 0 (-1) none ?_ ?_ ?_).2 j p h
  · intro k; simp
  · intro _
    exact ⟨rfl, by intro k q hk1 hk2; omega⟩
  · intro j p hp; cases hp

theorem bestIdxAux_some_of_exists (l : List Player)
    (h : ∃ q ∈ l, q.is_active = true) :
    ∃ (j : Nat) (p : Player), bestIdxAux l 0 (-1) none = some (j, p) := by
  rcases hres : bestIdxAux l 0 (-1) none with _ | ⟨j, p⟩
  · exfalso
    obtain ⟨q, hq, hqa⟩ := h
    obtain ⟨k, hk⟩ := List.getElem?_of_mem hq
    have spec := (bestIdxAux_spec l l 0 (-1) none ?_ ?_ ?_).1 hres k q hk
    · rw [spec] at hqa; cases hqa
    · intro k; simp
    · intro _
      exact ⟨rfl, by intro k q hk1 hk2; omega⟩
    · intro j p hp; cases hp
  · exact ⟨j, p, rfl⟩

/-! ## Settlement pays the pot to exactly one player -/

theorem fold_settle_payment (g : Game) (n w : String) (b : Int)
    (h : (fold_player g n).2 = .ok (.winner w b)) :
    (fold_player g n).1.pot = 0 ∧ (fold_player g n).1.is_active = false ∧
    ∃ (j : Nat) (p : Player), g.players[j]? = some p ∧ p.is_active = true ∧
      p.name = w ∧ b = p.balance + g.pot ∧
      ((fold_player g n).1.players.map Player.balance)[j]? =
        some (p.balance + g.pot) ∧
      ∀ k : Nat, k ≠ j →
        ((fold_player g n).1.players.map Player.balance)[k]? =
        (g.players.map Player.balance)[k]? := by
  obtain ⟨wp, hfil, hw, hb, hstate⟩ := fold_player_winner_state g n w b h
  obtain ⟨j, hj, hwact, hothers⟩ := filter_eq_singleton_pos _ _ wp hfil
  have hgj : g.players[j]? = some wp := by
    rcases getElem?_updateFirst (fun q => q.name == n) Player.fold g.players j
      with heq | ⟨x, hx, hpx, hfx⟩
    · rw [← heq]; exact hj
    · exfalso
      rw [hfx] at hj
      injection hj with hj2
      have : wp.is_active = false := by rw [← hj2]; rfl
      rw [hwact] at this
      cases this
  have hbal : (updateFirst (fun q => q.name == n) Player.fold g.players).map
      Player.balance = g.players.map Player.balance :=
    map_updateFirst _ _ _ _ (fun x _ => rfl)
  have hmm : ((fold_player g n).1.players).map Player.balance =
      (updateFirst (fun q => q.name == n) Player.fold g.players).map
        (fun q => if q.is_active then q.balance + g.pot else q.balance) := by
    rw [hstate]
    simp only [List.map_map]
    apply List.map_congr_left
    intro q _
    by_cases hq : q.is_active = true <;> simp [hq]
  refine ⟨by rw [hstate], by rw [hstate], j, wp, hgj, hwact, hw.symm, hb, ?_, ?_⟩
  · rw [hmm, List.getElem?_map, hj]
    simp [hwact]
  · intro k hk
    rw [hmm, List.getElem?_map, ← hbal, List.getElem?_map]
    rcases hk2 : (updateFirst (fun q => q.name == n) Player.fold g.players)[k]?
      with _ | y
    · rw [hk2]; rfl
    · rw [hk2]
      have hy := hothers k y hk hk2
      simp [hy]

theorem compare_settle_payment (g : Game) (w : String) (b : Int)
    (h : (compare_cards g).2 = .ok (.winner w b)) :
    (compare_cards g).1.pot = 0 ∧ (compare_cards g).1.is_active = false ∧
    ∃ (j : Nat) (p : Player), g.players[j]? = some p ∧ p.is_active = true ∧
      p.name = w ∧ b = p.balance + g.pot ∧
      ((compare_cards g).1.players.map Player.balance)[j]? =
        some (p.balance + g.pot) ∧
      ∀ k : Nat, k ≠ j →
        ((compare_cards g).1.players.map Player.balance)[k]? =
        (g.players.map Player.balance)[k]? := by
  obtain ⟨hact, hlen, j, p, hbest, hout, hstate⟩ := compare_cards_ok g _ h
  injection hout with hw hb
  obtain ⟨hj, hpact, _, _⟩ := bestIdxAux_isFirstMax _ _ _ hbest
  have hjlen : j < g.players.length := (List.getElem?_eq_some.mp hj).1
  refine ⟨by rw [hstate], by rw [hstate], j, p, hj, hpact, hw.symm, hb, ?_, ?_⟩
  · rw [hstate]
    simp only [List.getElem?_map]
    rw [List.getElem?_set_self (by simpa using hjlen)]
    rfl
  · intro k hk
    rw [hstate]
    simp only [List.getElem?_map]
    rw [List.getElem?_set_ne (by omega)]

/-! ## Pot accounting along a run -/

theorem fold_player_not_winner_state (g : Game) (n : String)
    (h : ∀ (w : String) (b : Int), (fold_player g n).2 ≠ .ok (.winner w b)) :
    (fold_player g n).1.pot = g.pot ∧
    (fold_player g n).1.is_active = g.is_active := by
  revert h
  unfold fold_player
  split
  · intro _; exact ⟨rfl, rfl⟩
  · split
    · intro _; exact ⟨rfl, rfl⟩
    · split
      · rename_i wp hfil
        intro h
        exact absurd rfl (h wp.name (wp.balance + g.pot))
      · split
        · intro _; exact ⟨rfl, rfl⟩
        · intro _; exact ⟨rfl, rfl⟩

theorem compare_cards_ok_is_winner (g : Game) (out : Output)
    (h : (compare_cards g).2 = .ok out) :
    ∃ (w : String) (b : Int), out = .winner w b := by
  obtain ⟨_, _, j, p, _, hout, _⟩ := compare_cards_ok g out h
  exact ⟨p.name, p.balance + g.pot, hout⟩

theorem place_bet_ok_is_betPlaced (g : Game) (n : String) (a : Int)
    (out : Output) (h : (place_bet g n a).2 = .ok out) :
    out = .betPlaced (g.pot + a) :=
  (place_bet_ok_state g n a out h).2.1

/-- A call that is neither the reset endpoint nor a settlement changes the
pot by exactly the amount of the accepted bet (0 for everything else). -/
theorem step_pot (g : Game) (c : Cmd)
    (hreset : isStartGameCmd c = false)
    (hsettle : settlesB g c = false) :
    (step1 g c).pot = g.pot + betAccepted g c := by
  cases c with
  | start_game => simp [isStartGameCmd] at hreset
  | join n cs =>
    have h0 : betAccepted g (.join n cs) = 0 := rfl
    rw [h0, Int.add_zero]
    exact join_game_pot g n cs
  | start_and_play sh =>
    have h0 : betAccepted g (.start_and_play sh) = 0 := rfl
    rw [h0, Int.add_zero]
    exact start_and_play_pot sh g
  | bet n a =>
    rcases hres : (place_bet g n a).2 with e | out
    · have hstate := place_bet_error_state g n a e hres
      have h0 : betAccepted g (.bet n a) = 0 := by
        simp [betAccepted, stepEv, hres]
      rw [h0, Int.add_zero]
      show (place_bet g n a).1.pot = g.pot
      rw [hstate]
    · obtain ⟨hstate, hout, _, _⟩ := place_bet_ok_state g n a out hres
      have h0 : betAccepted g (.bet n a) = a := by
        simp [betAccepted, stepEv, hres, hout]
      rw [h0]
      show (place_bet g n a).1.pot = g.pot + a
      rw [hstate]
  | fold n =>
    have h0 : betAccepted g (.fold n) = 0 := by
      simp only [betAccepted]
    rw [h0, Int.add_zero]
    have hnw : ∀ (w : String) (b : Int),
        (fold_player g n).2 ≠ .ok (.winner w b) := by
      intro w b hcontra
      simp [settlesB, stepEv, hcontra] at hsettle
    exact (fold_player_not_winner_state g n hnw).1
  | compare =>
    have h0 : betAccepted g .compare = 0 := by
      simp only [betAccepted]
    rw [h0, Int.add_zero]
    rcases hres : (compare_cards g).2 with e | out
    · have hstate := compare_cards_error_state g e hres
      show (compare_cards g).1.pot = g.pot
      rw [hstate]
    · exfalso
      obtain ⟨w, b, hout⟩ := compare_cards_ok_is_winner g out hres
      rw [hout] at hres
      simp [settlesB, stepEv, hres] at hsettle

/-- Along a run without resets or settlements, the pot grows by exactly the
sum of the accepted bet amounts. -/
theorem run_pot (cs : List Cmd) : ∀ g : Game, noMidSettleB g cs = true →
    (run g cs).pot = g.pot + sumAcceptedBets g cs := by
  induction cs with
  | nil =>
    intro g _
    simp [run, sumAcceptedBets]
  | cons c cs ih =>
    intro g h
    unfold noMidSettleB at h
    simp only [Bool.and_eq_true, Bool.not_eq_true'] at h
    obtain ⟨⟨h1, h2⟩, h3⟩ := h
    show (run (step1 g c) cs).pot = g.pot + sumAcceptedBets g (c :: cs)
    rw [ih (step1 g c) h3, step_pot g c h1 h2, sumAcceptedBets]
    ring

/-! ## The pot is zero whenever a reachable game is inactive -/

theorem init_game_err_state (sh : List Card → List Card) (g : Game) :
    (init_game sh g).2 = true →
    (init_game sh g).1 =
      { g with
          deck := (dealLoop g.players (sh fullDeck)).2.1,
          players := (dealLoop g.players (sh fullDeck)).1 } := by
  unfold init_game
  split
  · intro _; rfl
  · intro h; simp at h

theorem start_and_play_is_active (sh : List Card → List Card) (g : Game) :
    (start_and_play sh g).1.is_active = g.is_active ∨
    (start_and_play sh g).1.is_active = true := by
  unfold start_and_play
  split
  · left; rfl
  · split
    · left; rfl
    · split
      · rename_i hflag
        left
        rw [init_game_err_state sh g hflag]
      · rename_i hflag
        have hok : (init_game sh g).2 = false := by simpa using hflag
        split
        · right
          rw [init_game_ok_state sh g hok]
        · right
          rw [init_game_ok_state sh g hok]

/-- While the game is inactive the pot is zero. -/
def InvPot (g : Game) : Prop := g.is_active = false → g.pot = 0

theorem step_invPot (g : Game) (c : Cmd) (h : InvPot g) : InvPot (step1 g c) := by
  cases c with
  | start_game => intro _; rfl
  | join n cs =>
    intro ha
    have ha2 : (join_game g n cs).1.is_active = false := ha
    show (join_game g n cs).1.pot = 0
    rw [join_game_pot]
    apply h
    rw [← join_game_is_active g n cs]
    exact ha2
  | start_and_play sh =>
    intro ha
    have ha2 : (start_and_play sh g).1.is_active = false := ha
    show (start_and_play sh g).1.pot = 0
    rw [start_and_play_pot]
    rcases start_and_play_is_active sh g with hsame | htrue
    · apply h
      rw [← hsame]
      exact ha2
    · exfalso
      rw [htrue] at ha2
      cases ha2
  | bet n a =>
    rcases hres : (place_bet g n a).2 with e | out
    · intro ha
      have ha2 : (place_bet g n a).1.is_active = false := ha
      have hst := place_bet_error_state g n a e hres
      show (place_bet g n a).1.pot = 0
      rw [hst]
      apply h
      rw [← hst]
      exact ha2
    · obtain ⟨hstate, _, hact, _⟩ := place_bet_ok_state g n a out hres
      intro ha
      have ha2 : (place_bet g n a).1.is_active = false := ha
      exfalso
      rw [hstate] at ha2
      have hfin : g.is_active = false := ha2
      rw [hact] at hfin
      cases hfin
  | fold n =>
    rcases hres : (fold_player g n).2 with e | out
    · have hnw : ∀ (w : String) (b : Int),
          (fold_player g n).2 ≠ .ok (.winner w b) := by
        intro w b hc
        rw [hres] at hc
        cases hc
      obtain ⟨hpot, hacts⟩ := fold_player_not_winner_state g n hnw
      intro ha
      have ha2 : (fold_player g n).1.is_active = false := ha
      show (fold_player g n).1.pot = 0
      rw [hpot]
      apply h
      rw [← hacts]
      exact ha2
    · by_cases hw : ∃ (w : String) (b : Int), out = .winner w b
      · obtain ⟨w, b, rfl⟩ := hw
        intro _
        exact (fold_settle_payment g n w b hres).1
      · have hnw : ∀ (w : String) (b : Int),
            (fold_player g n).2 ≠ .ok (.winner w b) := by
          intro w b hc
          rw [hres] at hc
          injection hc with hc2
          exact hw ⟨w, b, hc2⟩
        obtain ⟨hpot, hacts⟩ := fold_player_not_winner_state g n hnw
        intro ha
        have ha2 : (fold_player g n).1.is_active = false := ha
        show (fold_player g n).1.pot = 0
        rw [hpot]
        apply h
        rw [← hacts]
        exact ha2
  | compare =>
    rcases hres : (compare_cards g).2 with e | out
    · intro ha
      have ha2 : (compare_cards g).1.is_active = false := ha
      have hst := compare_cards_error_state g e hres
      show (compare_cards g).1.pot = 0
      rw [hst]
      apply h
      rw [← hst]
      exact ha2
    · obtain ⟨w, b, rfl⟩ := compare_cards_ok_is_winner g out hres
      intro _
      exact (compare_settle_payment g w b hres).1

theorem run_invPot (cs : List Cmd) : ∀ g : Game, InvPot g → InvPot (run g cs) := by
  induction cs with
  | nil => intro g h; exact h
  | cons c cs ih => intro g h; exact ih (step1 g c) (step_invPot g c h)

theorem reachable_pot_zero (g : Game) (h : Reachable g)
    (ha : g.is_active = false) : g.pot = 0 := by
  obtain ⟨cs, hcs⟩ := h
  have hinv : InvPot (run emptyGame cs) := run_invPot cs emptyGame (fun _ => rfl)
  rw [hcs] at hinv
  exact hinv ha

theorem join_game_ok_is_joined (g : Game) (n : String) (cs : List Card)
    (out : Output) (h : (join_game g n cs).2 = .ok out) :
    ∃ names, out = .joined names := by
  revert h
  unfold join_game
  split
  · intro h; simp at h
  · split
    · intro h; simp at h
    · intro h
      injection h with h2
      exact ⟨_, h2.symm⟩

/-- C1: whenever a round settles — by showdown (`compare_cards`) or by a fold
reducing the active players to one — the whole pot is credited to exactly one
winner's balance exactly once (all other balances unchanged), the pot is
zeroed and the game deactivated; and the pot at settlement equals the sum of
all bet amounts accepted since the round was started. -/
theorem C1_settlement_pot_accounting
    (g0 g1 g2 : Game) (sh : List Card → List Card) (mid : List Cmd)
    (final : Cmd) (t w : String) (b : Int)
    (hreach : Reachable g0)
    (hstart : stepEv g0 (Cmd.start_and_play sh) = (g1, .ok (.started t)))
    (hmid : noMidSettleB g1 mid = true)
    (hg2 : run g1 mid = g2)
    (hfin : (stepEv g2 final).2 = .ok (.winner w b)) :
    g2.pot = sumAcceptedBets g1 mid ∧
    (stepEv g2 final).1.pot = 0 ∧
    (stepEv g2 final).1.is_active = false ∧
    ∃ (j : Nat) (p : Player), g2.players[j]? = some p ∧ p.is_active = true ∧
      p.name = w ∧ b = p.balance + g2.pot ∧
      ((stepEv g2 final).1.players.map Player.balance)[j]? =
        some (p.balance + g2.pot) ∧
      ∀ k : Nat, k ≠ j →
        ((stepEv g2 final).1.players.map Player.balance)[k]? =
        (g2.players.map Player.balance)[k]? := by
  have hstart2 : (start_and_play sh g0).2 = .ok (.started t) :=
    congrArg Prod.snd hstart
  have hstart1 : (start_and_play sh g0).1 = g1 := congrArg Prod.fst hstart
  obtain ⟨hlen0, hact0, _, _, _⟩ := start_and_play_ok sh g0 _ hstart2
  have hpot0 : g0.pot = 0 := reachable_pot_zero g0 hreach hact0
  have hpot1 : g1.pot = 0 := by
    rw [← hstart1, start_and_play_pot, hpot0]
  have hpot2 : g2.pot = sumAcceptedBets g1 mid := by
    rw [← hg2, run_pot mid g1 hmid, hpot1, Int.zero_add]
  refine ⟨hpot2, ?_⟩
  cases final with
  | start_game => simp [stepEv, start_game] at hfin
  | join n cs =>
    exfalso
    obtain ⟨names, hj⟩ := join_game_ok_is_joined g2 n cs _ hfin
    cases hj
  | start_and_play sh2 =>
    exfalso
    obtain ⟨_, _, _, _, t2, rest, _, hw⟩ := start_and_play_ok sh2 g2 _ hfin
    cases hw
  | bet n a =>
    exfalso
    have := place_bet_ok_is_betPlaced g2 n a _ hfin
    cases this
  | fold n =>
    have hfin2 : (fold_player g2 n).2 = .ok (.winner w b) := hfin
    obtain ⟨h1, h2, j, p, hj, hp1, hp2, hp3, hp4, hp5⟩ :=
      fold_settle_payment g2 n w b hfin2
    exact ⟨h1, h2, j, p, hj, hp1, hp2, hp3, hp4, hp5⟩
  | compare =>
    have hfin2 : (compare_cards g2).2 = .ok (.winner w b) := hfin
    obtain ⟨h1, h2, j, p, hj, hp1, hp2, hp3, hp4, hp5⟩ :=
      compare_settle_payment g2 w b hfin2
    exact ⟨h1, h2, j, p, hj, hp1, hp2, hp3, hp4, hp5⟩

/-- Concrete game used by witnesses: players "A" and "B" have joined. -/
def gW0 : Game := run emptyGame [Cmd.join "A" [], Cmd.join "B" []]

/-- The witness game after the explicit start with the identity shuffle. -/
def gW1 : Game := (stepEv gW0 (Cmd.start_and_play id)).1

/-- The witness game after "A" bets 50. -/
def gW2 : Game := run gW1 [Cmd.bet "A" 50]

theorem C1_settlement_pot_accounting_witness :
    gW2.pot = sumAcceptedBets gW1 [Cmd.bet "A" 50] ∧
    (stepEv gW2 (Cmd.fold "B")).1.pot = 0 ∧
    (stepEv gW2 (Cmd.fold "B")).1.is_active = false ∧
    ∃ (j : Nat) (p : Player), gW2.players[j]? = some p ∧ p.is_active = true ∧
      p.name = "A" ∧ (1000 : Int) = p.balance + gW2.pot ∧
      ((stepEv gW2 (Cmd.fold "B")).1.players.map Player.balance)[j]? =
        some (p.balance + gW2.pot) ∧
      ∀ k : Nat, k ≠ j →
        ((stepEv gW2 (Cmd.fold "B")).1.players.map Player.balance)[k]? =
        (gW2.players.map Player.balance)[k]? :=
  C1_settlement_pot_accounting gW0 gW1 gW2 id [Cmd.bet "A" 50] (Cmd.fold "B")
    "A" "A" 1000 ⟨[Cmd.join "A" [], Cmd.join "B" []], rfl⟩ (by decide)
    (by decide) rfl (by decide)

/-- C3: a bet rejected for any reason leaves the entire game state — pot,
turn index, every balance and current_bet — exactly as before the call; and
when the game is active, the player is found and active, and it is their
turn, a non-positive or over-balance amount is the rejection reported as
`invalidBet`. -/
theorem C3_rejected_bet_state_unchanged (g : Game) (n : String) (a : Int) :
    (∀ e : Err, (place_bet g n a).2 = .error e → (place_bet g n a).1 = g) ∧
    (∀ p : Player, g.is_active = true → findPlayer g n = some p →
      p.is_active = true →
      g.current_turn_order[g.current_turn_index]? = some n →
      (a ≤ 0 ∨ p.balance < a) →
      (place_bet g n a).2 = .error .invalidBet) := by
  constructor
  · exact place_bet_error_state g n a
  · intro p hact hfind hpact hturn hbad
    unfold place_bet Player.place_bet
    rw [hact, hfind, hturn]
    simp [hpact, if_pos hbad]

/-- The dealt hand of player "A" in the witness game. -/
def pW_A : Player :=
  { name := "A",
    cards := [Card.mk .rA .spades "A of spades",
              Card.mk .rK .spades "K of spades"] }

theorem C3_rejected_bet_state_unchanged_witness :
    (place_bet emptyGame "A" 5).1 = emptyGame ∧
    (place_bet gW1 "A" (-5)).2 = .error .invalidBet :=
  ⟨(C3_rejected_bet_state_unchanged emptyGame "A" 5).1 .gameNotActive
      (by decide),
   (C3_rejected_bet_state_unchanged gW1 "A" (-5)).2 pW_A (by decide)
      (by decide) (by decide) (by decide) (Or.inl (by decide))⟩

/-! ## Turn rotation -/

theorem rot_step_order_index (g : Game) (c : Cmd) (h : rotStepB g c = true) :
    (step1 g c).current_turn_order = g.current_turn_order ∧
    (step1 g c).current_turn_index =
      (g.current_turn_index + 1) % g.current_turn_order.length := by
  cases c with
  | start_game => simp [rotStepB] at h
  | join n cs => simp [rotStepB] at h
  | start_and_play sh => simp [rotStepB] at h
  | compare => simp [rotStepB] at h
  | bet n a =>
    rcases hres : (place_bet g n a).2 with e | out
    · simp [rotStepB, stepEv, hres] at h
    · obtain ⟨hstate, _, _, _⟩ := place_bet_ok_state g n a out hres
      have hstate2 : (step1 g (Cmd.bet n a)) = (place_bet g n a).1 := rfl
      rw [hstate2, hstate]
      exact ⟨rfl, rfl⟩
  | fold n =>
    rcases hres : (fold_player g n).2 with e | out
    · simp [rotStepB, stepEv, hres] at h
    · cases out with
      | folded =>
        obtain ⟨hstate, _⟩ := fold_player_folded_state g n hres
        have hstate2 : (step1 g (Cmd.fold n)) = (fold_player g n).1 := rfl
        rw [hstate2, hstate]
        exact ⟨rfl, rfl⟩
      | newGame => simp [rotStepB, stepEv, hres] at h
      | joined names => simp [rotStepB, stepEv, hres] at h
      | started t => simp [rotStepB, stepEv, hres] at h
      | betPlaced q => simp [rotStepB, stepEv, hres] at h
      | winner w b => simp [rotStepB, stepEv, hres] at h

theorem rot_run (cs : List Cmd) : ∀ g : Game,
    rotStepsB g cs = true →
    g.current_turn_index < g.current_turn_order.length →
    (run g cs).current_turn_order = g.current_turn_order ∧
    (run g cs).current_turn_index =
      (g.current_turn_index + cs.length) % g.current_turn_order.length := by
  induction cs with
  | nil =>
    intro g _ hidx
    exact ⟨rfl, (Nat.mod_eq_of_lt hidx).symm⟩
  | cons c cs ih =>
    intro g h hidx
    unfold rotStepsB at h
    simp only [Bool.and_eq_true] at h
    obtain ⟨h1, h2⟩ := h
    obtain ⟨ho, hi⟩ := rot_step_order_index g c h1
    have hL : 0 < g.current_turn_order.length := by omega
    have hidx2 : (step1 g c).current_turn_index <
        (step1 g c).current_turn_order.length := by
      rw [ho, hi]
      exact Nat.mod_lt _ hL
    obtain ⟨ho2, hi2⟩ := ih (step1 g c) h2 hidx2
    constructor
    · rw [show run g (c :: cs) = run (step1 g c) cs from rfl, ho2, ho]
    · rw [show run g (c :: cs) = run (step1 g c) cs from rfl, hi2, hi, ho]
      rw [Nat.mod_add_mod]
      congr 1
      simp [List.length_cons]
      omega

/-- C4: every successful bet and every successful non-settling fold replaces
turn index i by (i + 1) mod L without touching the turn order or skipping
folded players, so k consecutive such calls starting from a valid index i
end at index (i + k) mod L — starting from 0 they visit 0, 1, …, L−1, 0 in
order. -/
theorem C4_round_robin_rotation (g : Game) (cs : List Cmd)
    (h : rotStepsB g cs = true)
    (hidx : g.current_turn_index < g.current_turn_order.length) :
    (∀ c : Cmd, rotStepB g c = true →
      (step1 g c).current_turn_order = g.current_turn_order ∧
      (step1 g c).current_turn_index =
        (g.current_turn_index + 1) % g.current_turn_order.length) ∧
    (run g cs).current_turn_order = g.current_turn_order ∧
    (run g cs).current_turn_index =
      (g.current_turn_index + cs.length) % g.current_turn_order.length := by
  refine ⟨fun c hc => rot_step_order_index g c hc, ?_, ?_⟩
  · exact (rot_run cs g h hidx).1
  · exact (rot_run cs g h hidx).2

theorem C4_round_robin_rotation_witness :
    (run gW1 [Cmd.bet "A" 50, Cmd.bet "B" 30]).current_turn_order =
      gW1.current_turn_order ∧
    (run gW1 [Cmd.bet "A" 50, Cmd.bet "B" 30]).current_turn_index =
      (gW1.current_turn_index + 2) % gW1.current_turn_order.length := by
  have h := C4_round_robin_rotation gW1 [Cmd.bet "A" 50, Cmd.bet "B" 30]
    (by decide) (by decide)
  exact ⟨h.2.1, h.2.2⟩

/-- C2: the showdown is accepted exactly when the game is active with at
least 2 active players; on success it awards the whole pot to the active
player with the strictly highest two-card rank sum (2=2 … 10=10, J=11,
Q=12, K=13, A=14), ties resolving to the player in the earliest
turn-order/join-order position (`IsFirstMax`). -/
theorem C2_showdown_winner (g : Game) :
    ((∃ out, (compare_cards g).2 = .ok out) ↔
      (g.is_active = true ∧
       2 ≤ (g.players.filter (fun p => p.is_active)).length)) ∧
    (∀ (w : String) (b : Int), (compare_cards g).2 = .ok (.winner w b) →
      ∃ (j : Nat) (p : Player), g.players[j]? = some p ∧
        IsFirstMax g.players j p ∧ w = p.name ∧ b = p.balance + g.pot) := by
  constructor
  · constructor
    · rintro ⟨out, hout⟩
      obtain ⟨hact, hlen, _⟩ := compare_cards_ok g out hout
      exact ⟨hact, hlen⟩
    · rintro ⟨hact, hlen⟩
      have hex : ∃ q ∈ g.players, q.is_active = true := by
        have hne : (g.players.filter (fun p => p.is_active)).length ≠ 0 := by
          omega
        rcases hfil : g.players.filter (fun p => p.is_active) with _ | ⟨q, rest⟩
        · rw [hfil] at hne
          simp at hne
        · have hq : q ∈ g.players.filter (fun p => p.is_active) := by
            rw [hfil]
            exact List.mem_cons_self q rest
          have hmf := List.mem_filter.mp hq
          exact ⟨q, hmf.1, by simpa using hmf.2⟩
      obtain ⟨j, p, hbest⟩ := bestIdxAux_some_of_exists g.players hex
      refine ⟨.winner p.name (p.balance + g.pot), ?_⟩
      unfold compare_cards
      rw [if_neg (by simp [hact]), if_neg (by omega), hbest]
  · intro w b hout
    obtain ⟨hact, hlen, j, p, hbest, houteq, _⟩ := compare_cards_ok g _ hout
    injection houteq with hw hb
    have hfm := bestIdxAux_isFirstMax _ _ _ hbest
    exact ⟨j, p, hfm.1, hfm, hw, hb⟩

theorem C2_showdown_winner_witness :
    (∃ out, (compare_cards gW2).2 = .ok out) ∧
    ∃ (j : Nat) (p : Player), gW2.players[j]? = some p ∧
      IsFirstMax gW2.players j p ∧ "A" = p.name ∧
      (1000 : Int) = p.balance + gW2.pot :=
  ⟨(C2_showdown_winner gW2).1.mpr ⟨by decide, by decide⟩,
   (C2_showdown_winner gW2).2 "A" 1000 (by decide)⟩

/-! ## Dealing lemmas -/

theorem popCard_none_iff (d : List Card) : popCard d = none ↔ d = [] := by
  unfold popCard
  split
  · rename_i hgl
    simp [List.getLast?_eq_none_iff.mp hgl]
  · rename_i c hgl
    constructor
    · intro h; cases h
    · intro h
      subst h
      cases hgl

theorem popCard_some (d : List Card) (c : Card) (d1 : List Card)
    (h : popCard d = some (c, d1)) :
    d = d1 ++ [c] ∧ d1.length = d.length - 1 ∧ 1 ≤ d.length := by
  revert h
  unfold popCard
  split
  · intro h; cases h
  · rename_i c2 hgl
    intro h
    injection h with h2
    cases h2
    have happ := List.dropLast_append_getLast? _ hgl
    refine ⟨happ.symm, List.length_dropLast d, ?_⟩
    have hne : d ≠ [] := by
      intro hnil
      subst hnil
      cases hgl
    have := List.length_pos.mpr hne
    omega

theorem dealLoop_err_iff (ps : List Player) : ∀ d : List Card,
    ((dealLoop ps d).2.2 = true ↔ d.length < 2 * ps.length) := by
  induction ps with
  | nil =>
    intro d
    simp [dealLoop]
  | cons p ps ih =>
    intro d
    rcases h1 : popCard d with _ | ⟨c1, d1⟩
    · have hd : d = [] := (popCard_none_iff d).mp h1
      subst hd
      simp only [dealLoop, popCard, List.getLast?_nil, List.length_nil,
        List.length_cons]
      constructor
      · intro _; omega
      · intro _; trivial
    · obtain ⟨happ1, hlen1, hge1⟩ := popCard_some d c1 d1 h1
      rcases h2 : popCard d1 with _ | ⟨c2, d2⟩
      · have hd1 : d1 = [] := (popCard_none_iff d1).mp h2
        simp only [dealLoop, h1, h2, List.length_cons]
        constructor
        · intro _
          subst hd1
          rw [happ1]
          simp only [List.nil_append, List.length_cons, List.length_nil]
          omega
        · intro _; trivial
      · obtain ⟨happ2, hlen2, hge2⟩ := popCard_some d1 c2 d2 h2
        simp only [dealLoop, h1, h2, List.length_cons]
        rw [ih d2]
        omega

theorem dealLoop_ok_shape (ps : List Player) : ∀ d : List Card,
    (dealLoop ps d).2.2 = false →
    (dealLoop ps d).1.length = ps.length ∧
    (dealLoop ps d).1.map Player.name = ps.map Player.name ∧
    (∀ q ∈ (dealLoop ps d).1, q.cards.length = 2) ∧
    (dealLoop ps d).2.1.length = d.length - 2 * ps.length ∧
    ∃ extra : List Card, d = (dealLoop ps d).2.1 ++ extra ∧
      ((dealLoop ps d).1.map Player.cards).flatten.Perm extra := by
  induction ps with
  | nil =>
    intro d _
    refine ⟨rfl, rfl, ?_, ?_, [], ?_, ?_⟩
    · intro q hq; cases hq
    · simp [dealLoop]
    · simp [dealLoop]
    · simp [dealLoop]
  | cons p ps ih =>
    intro d hflag
    rcases h1 : popCard d with _ | ⟨c1, d1⟩
    · exfalso
      simp only [dealLoop, h1] at hflag
      cases hflag
    · rcases h2 : popCard d1 with _ | ⟨c2, d2⟩
      · exfalso
        simp only [dealLoop, h1, h2] at hflag
        cases hflag
      · obtain ⟨happ1, hlen1, hge1⟩ := popCard_some d c1 d1 h1
        obtain ⟨happ2, hlen2, hge2⟩ := popCard_some d1 c2 d2 h2
        simp only [dealLoop, h1, h2] at hflag ⊢
        obtain ⟨hlen, hnames, hcards, hdlen, extra2, hsplit, hperm⟩ :=
          ih d2 hflag
        refine ⟨?_, ?_, ?_, ?_, extra2 ++ [c2] ++ [c1], ?_, ?_⟩
        · simp [hlen]
        · simp [hnames]
        · intro q hq
          simp only [List.mem_cons] at hq
          rcases hq with rfl | hq
          · rfl
          · exact hcards q hq
        · simp only [List.length_cons]
          omega
        · rw [happ1, happ2]
          conv_lhs => rw [hsplit]
          simp [List.append_assoc]
        · simp only [List.map_cons, List.flatten_cons]
          have s1 : ([c1, c2] ++
              ((dealLoop ps d2).1.map Player.cards).flatten).Perm
              (((dealLoop ps d2).1.map Player.cards).flatten ++ [c1, c2]) :=
            List.perm_append_comm
          have s2 : (((dealLoop ps d2).1.map Player.cards).flatten ++
              [c1, c2]).Perm (extra2 ++ [c1, c2]) :=
            hperm.append_right [c1, c2]
          have s3 : (extra2 ++ [c1, c2]).Perm (extra2 ++ [c2, c1]) :=
            (List.Perm.swap c2 c1 []).append_left extra2
          have s4 := (s1.trans s2).trans s3
          have heq : extra2 ++ [c2] ++ [c1] = extra2 ++ [c2, c1] := by
            simp
          rw [heq]
          exact s4

theorem init_game_flag (sh : List Card → List Card) (g : Game) :
    (init_game sh g).2 = (dealLoop g.players (sh fullDeck)).2.2 := by
  unfold init_game
  split
  · rename_i h
    exact h.symm
  · rename_i h
    simp only [Bool.not_eq_true] at h
    exact h.symm

/-- C8: with N joined players and 2N ≤ 52, starting a round builds a deck of
exactly the 52 distinct (rank, suit) pairs; after dealing every player holds
exactly 2 cards, the 2N dealt cards are pairwise distinct with no card
shared between players, and 52 − 2N cards remain in the deck. -/
theorem C8_deal_distinct (g : Game) (sh : List Card → List Card)
    (hperm : (sh fullDeck).Perm fullDeck)
    (hN : 2 * g.players.length ≤ 52) :
    fullDeck.length = 52 ∧
    (fullDeck.map (fun c => (c.rank, c.suit))).Nodup ∧
    (init_game sh g).2 = false ∧
    (∀ q ∈ (init_game sh g).1.players, q.cards.length = 2) ∧
    ((init_game sh g).1.players.map Player.cards).flatten.Nodup ∧
    ((init_game sh g).1.players.map Player.cards).flatten.length =
      2 * g.players.length ∧
    (init_game sh g).1.deck.length = 52 - 2 * g.players.length := by
  have hlen52 : (sh fullDeck).length = 52 := by
    rw [hperm.length_eq]
    decide
  have hflag : (dealLoop g.players (sh fullDeck)).2.2 = false := by
    rcases hb : (dealLoop g.players (sh fullDeck)).2.2 with _ | _
    · rfl
    · exfalso
      have := (dealLoop_err_iff g.players (sh fullDeck)).mp hb
      rw [hlen52] at this
      omega
  have hflag2 : (init_game sh g).2 = false := by
    rw [init_game_flag]
    exact hflag
  have hstate := init_game_ok_state sh g hflag2
  obtain ⟨hlen, hnames, hcards, hdlen, extra, hsplit, hpermx⟩ :=
    dealLoop_ok_shape g.players (sh fullDeck) hflag
  have hnodup : (sh fullDeck).Nodup := hperm.symm.nodup (by decide)
  have hextra : extra.Nodup := by
    rw [hsplit] at hnodup
    exact hnodup.of_append_right
  refine ⟨by decide, by decide, hflag2, ?_, ?_, ?_, ?_⟩
  · intro q hq
    rw [hstate] at hq
    exact hcards q hq
  · rw [hstate]
    exact hpermx.symm.nodup hextra
  · rw [hstate, hpermx.length_eq]
    have := congrArg List.length hsplit
    rw [List.length_append] at this
    omega
  · rw [hstate]
    show (dealLoop g.players (sh fullDeck)).2.1.length =
      52 - 2 * g.players.length
    rw [hdlen, hlen52]

theorem C8_deal_distinct_witness :
    fullDeck.length = 52 ∧
    (fullDeck.map (fun c => (c.rank, c.suit))).Nodup ∧
    (init_game id gW0).2 = false ∧
    (∀ q ∈ (init_game id gW0).1.players, q.cards.length = 2) ∧
    ((init_game id gW0).1.players.map Player.cards).flatten.Nodup ∧
    ((init_game id gW0).1.players.map Player.cards).flatten.length =
      2 * gW0.players.length ∧
    (init_game id gW0).1.deck.length = 52 - 2 * gW0.players.length :=
  C8_deal_distinct gW0 id (List.Perm.refl _) (by decide)

/-- C7 counterexample: with 27 joined players the dealing loop pops from an
empty deck, so the start fails with the (uncaught) `IndexError` — there is
no `InsufficientCardsError` anywhere in the code. -/
theorem C7_counterexample :
    (start_and_play id
      { players := (List.range 27).map
          (fun i => { name := "P" ++ toString i }) }).2 =
    .error .indexError := by decide

/-- C7 amended: dealing performs no availability check: the deal loop fails
(the pop of the empty deck raises `IndexError`) exactly when fewer than 2N
cards remain; otherwise each of the N players receives exactly 2 cards
removed from the current end of the deck (the remaining deck is a prefix of
the old deck, the removed cards are the popped suffix). -/
theorem C7_deal_no_availability_check (ps : List Player) (d : List Card) :
    ((dealLoop ps d).2.2 = true ↔ d.length < 2 * ps.length) ∧
    ((dealLoop ps d).2.2 = false →
      (∀ q ∈ (dealLoop ps d).1, q.cards.length = 2) ∧
      ∃ extra : List Card, d = (dealLoop ps d).2.1 ++ extra ∧
        ((dealLoop ps d).1.map Player.cards).flatten.Perm extra) := by
  refine ⟨dealLoop_err_iff ps d, fun h => ?_⟩
  obtain ⟨_, _, hc, _, e, hs, hp⟩ := dealLoop_ok_shape ps d h
  exact ⟨hc, e, hs, hp⟩

/-- The freshly joined player "A" (no cards dealt yet). -/
def pJoin_A : Player := { name := "A" }

theorem C7_deal_no_availability_check_witness :
    (∀ q ∈ (dealLoop [pJoin_A] fullDeck).1, q.cards.length = 2) ∧
    ∃ extra : List Card, fullDeck = (dealLoop [pJoin_A] fullDeck).2.1 ++ extra ∧
      ((dealLoop [pJoin_A] fullDeck).1.map Player.cards).flatten.Perm extra :=
  (C7_deal_no_availability_check [pJoin_A] fullDeck).2 (by decide)

/-- C5 counterexample: joining "A" and "B" (reaching the minimum player
count) does not initialize the round: the game stays inactive, no turn
order is fixed and nobody is dealt any cards. -/
theorem C5_counterexample :
    (run emptyGame [Cmd.join "A" [], Cmd.join "B" []]).is_active = false ∧
    (run emptyGame [Cmd.join "A" [], Cmd.join "B" []]).current_turn_order
      = [] ∧
    ∀ q ∈ (run emptyGame [Cmd.join "A" [], Cmd.join "B" []]).players,
      q.cards = [] := by decide

/-- C5 amended: joining never changes the activity flag — the round starts
only on the explicit `start_and_play` call, which (with 2 ≤ N ≤ 26 joined
players and an inactive game) deals 2 cards to each player, fixes
turn_order to join order, resets turn_index to 0 and activates the game. -/
theorem C5_join_does_not_start (g : Game) :
    (∀ (n : String) (cs : List Card),
      (join_game g n cs).1.is_active = g.is_active) ∧
    (∀ sh : List Card → List Card, (sh fullDeck).Perm fullDeck →
      2 ≤ g.players.length → g.players.length ≤ 26 → g.is_active = false →
      ∃ t : String, (start_and_play sh g).2 = .ok (.started t) ∧
        (start_and_play sh g).1.is_active = true ∧
        (start_and_play sh g).1.current_turn_index = 0 ∧
        (start_and_play sh g).1.current_turn_order =
          g.players.map Player.name ∧
        ∀ q ∈ (start_and_play sh g).1.players, q.cards.length = 2) := by
  refine ⟨join_game_is_active g, ?_⟩
  intro sh hperm hlen2 hlen26 hact
  have hlen52 : (sh fullDeck).length = 52 := by
    rw [hperm.length_eq]
    decide
  have hflag : (dealLoop g.players (sh fullDeck)).2.2 = false := by
    rcases hb : (dealLoop g.players (sh fullDeck)).2.2 with _ | _
    · rfl
    · exfalso
      have := (dealLoop_err_iff g.players (sh fullDeck)).mp hb
      rw [hlen52] at this
      omega
  have hflag2 : (init_game sh g).2 = false := by
    rw [init_game_flag]
    exact hflag
  have hstate := init_game_ok_state sh g hflag2
  obtain ⟨hlen, hnames, hcards, _, _⟩ :=
    dealLoop_ok_shape g.players (sh fullDeck) hflag
  have horder : (init_game sh g).1.current_turn_order =
      g.players.map Player.name := by
    rw [hstate]
    exact hnames
  unfold start_and_play
  rw [if_neg (by omega), if_neg (by simp [hact]), if_neg (by simp [hflag2])]
  rcases hps : g.players with _ | ⟨p0, rest⟩
  · rw [hps] at hlen2
    simp at hlen2
  · have horder2 : (init_game sh g).1.current_turn_order =
        p0.name :: rest.map Player.name := by
      rw [horder, hps]
      rfl
    rw [horder2]
    refine ⟨p0.name, rfl, ?_, ?_, ?_, ?_⟩
    · rw [hstate]
    · rw [hstate]
    · rw [hps] at horder
      exact horder
    · intro q hq
      rw [hstate] at hq
      exact hcards q hq

theorem C5_join_does_not_start_witness :
    (join_game gW0 "C" []).1.is_active = gW0.is_active ∧
    ∃ t : String, (start_and_play id gW0).2 = .ok (.started t) ∧
      (start_and_play id gW0).1.is_active = true ∧
      (start_and_play id gW0).1.current_turn_index = 0 ∧
      (start_and_play id gW0).1.current_turn_order =
        gW0.players.map Player.name ∧
      ∀ q ∈ (start_and_play id gW0).1.players, q.cards.length = 2 :=
  ⟨(C5_join_does_not_start gW0).1 "C" [],
   (C5_join_does_not_start gW0).2 id (List.Perm.refl _) (by decide)
     (by decide) (by decide)⟩

/-- C6 counterexample: in the inactive two-player game (both joined, round
never started) a fold from "A" is accepted, mutates the state, and even
"settles": it pays the (empty) pot to "B" — the fold endpoint never checks
`is_active`. -/
theorem C6_counterexample :
    gW0.is_active = false ∧
    (fold_player gW0 "A").2 = .ok (.winner "B" 1000) ∧
    (fold_player gW0 "A").1 ≠ gW0 := by decide

/-- C6 amended: the fold operation does not check game activity at all: it
fails with the player-not-found/inactive error — changing no state — exactly
when the named player is unknown or already inactive, whether or not the
game is active. -/
theorem C6_fold_ignores_activity (g : Game) (n : String) :
    ((fold_player g n).2 = .error .playerNotFoundOrInactive ↔
      (∀ p : Player, findPlayer g n = some p → p.is_active = false)) ∧
    ((fold_player g n).2 = .error .playerNotFoundOrInactive →
      (fold_player g n).1 = g) :=
  ⟨fold_player_notfound_iff g n, fold_player_error_notfound g n⟩

theorem C6_fold_ignores_activity_witness :
    (fold_player emptyGame "A").2 = .error .playerNotFoundOrInactive ∧
    (fold_player emptyGame "A").1 = emptyGame :=
  ⟨by decide, (C6_fold_ignores_activity emptyGame "A").2 (by decide)⟩

/-! ## The turn-validity invariant -/

theorem join_game_turn_fields (g : Game) (n : String) (cs : List Card) :
    (join_game g n cs).1.current_turn_order = g.current_turn_order ∧
    (join_game g n cs).1.current_turn_index = g.current_turn_index := by
  unfold join_game
  split
  · exact ⟨rfl, rfl⟩
  · split
    · exact ⟨rfl, rfl⟩
    · exact ⟨rfl, rfl⟩

theorem step_invTurn (g : Game) (c : Cmd) (h : InvTurn g) :
    InvTurn (step1 g c) := by
  cases c with
  | start_game =>
    intro ha
    cases ha
  | join n cs =>
    intro ha
    have ha2 : (join_game g n cs).1.is_active = true := ha
    obtain ⟨ho, hi⟩ := join_game_turn_fields g n cs
    show (join_game g n cs).1.current_turn_index <
      (join_game g n cs).1.current_turn_order.length
    rw [ho, hi]
    apply h
    rw [← join_game_is_active g n cs]
    exact ha2
  | start_and_play sh =>
    intro ha
    have ha2 : (start_and_play sh g).1.is_active = true := ha
    show (start_and_play sh g).1.current_turn_index <
      (start_and_play sh g).1.current_turn_order.length
    revert ha2
    unfold start_and_play
    split
    · intro ha2; exact h ha2
    · rename_i hlen2
      split
      · intro ha2; exact h ha2
      · split
        · rename_i hflag
          rw [init_game_err_state sh g (by
            rw [init_game_flag]
            rw [init_game_flag] at hflag
            exact hflag)]
          intro ha2
          exact h ha2
        · rename_i hflag
          have hok : (init_game sh g).2 = false := by simpa using hflag
          have hstate := init_game_ok_state sh g hok
          have hflagd : (dealLoop g.players (sh fullDeck)).2.2 = false := by
            rw [← init_game_flag]
            exact hok
          obtain ⟨hlen, _, _, _, _⟩ :=
            dealLoop_ok_shape g.players (sh fullDeck) hflagd
          have hgoal : (init_game sh g).1.current_turn_index <
              (init_game sh g).1.current_turn_order.length := by
            rw [hstate]
            show 0 <
              ((dealLoop g.players (sh fullDeck)).1.map Player.name).length
            rw [List.length_map, hlen]
            omega
          split
          · intro _; exact hgoal
          · intro _; exact hgoal
  | bet n a =>
    intro ha
    rcases hres : (place_bet g n a).2 with e | out
    · have hst := place_bet_error_state g n a e hres
      have ha2 : (place_bet g n a).1.is_active = true := ha
      show (place_bet g n a).1.current_turn_index <
        (place_bet g n a).1.current_turn_order.length
      rw [hst]
      apply h
      rw [hst] at ha2
      exact ha2
    · obtain ⟨hstate, _, hact, hturn⟩ := place_bet_ok_state g n a out hres
      have hidx : g.current_turn_index < g.current_turn_order.length :=
        (List.getElem?_eq_some.mp hturn).1
      show (place_bet g n a).1.current_turn_index <
        (place_bet g n a).1.current_turn_order.length
      rw [hstate]
      show (g.current_turn_index + 1) % g.current_turn_order.length <
        g.current_turn_order.length
      exact Nat.mod_lt _ (by omega)
  | fold n =>
    intro ha
    have ha2 : (fold_player g n).1.is_active = true := ha
    show (fold_player g n).1.current_turn_index <
      (fold_player g n).1.current_turn_order.length
    revert ha2
    unfold fold_player
    split
    · intro ha2; exact h ha2
    · split
      · intro ha2; exact h ha2
      · split
        · intro ha2
          simp at ha2
        · split
          · rename_i hlen0
            intro ha2
            exact h ha2
          · rename_i hlen0
            intro _
            exact Nat.mod_lt _ (Nat.pos_of_ne_zero hlen0)
  | compare =>
    intro ha
    have ha2 : (compare_cards g).1.is_active = true := ha
    show (compare_cards g).1.current_turn_index <
      (compare_cards g).1.current_turn_order.length
    revert ha2
    unfold compare_cards
    split
    · intro ha2; exact h ha2
    · split
      · intro ha2; exact h ha2
      · split
        · intro ha2; exact h ha2
        · intro ha2
          simp at ha2

/-- C9: every operation preserves the invariant that while the game is
active `turn_index` is a valid index into `turn_order`; and a bet is
accepted only from the player named at `turn_order[turn_index]`. -/
theorem C9_turn_invariant :
    (∀ (g : Game) (c : Cmd), InvTurn g → InvTurn (step1 g c)) ∧
    (∀ (g : Game) (n : String) (a : Int) (out : Output),
      (place_bet g n a).2 = .ok out →
      g.current_turn_order[g.current_turn_index]? = some n) :=
  ⟨step_invTurn, fun g n a out h => (place_bet_ok_state g n a out h).2.2.2⟩

theorem C9_turn_invariant_witness :
    InvTurn (step1 gW1 (Cmd.bet "A" 50)) ∧
    gW1.current_turn_order[gW1.current_turn_index]? = some "A" :=
  ⟨C9_turn_invariant.1 gW1 (Cmd.bet "A" 50) (fun _ => by decide),
   C9_turn_invariant.2 gW1 "A" 50 (.betPlaced 50) (by decide)⟩

theorem fold_player_folded_of (g : Game) (n : String) (p : Player)
    (hfind : findPlayer g n = some p) (hpact : p.is_active = true)
    (hlen : ((updateFirst (fun q => q.name == n) Player.fold
      g.players).filter (fun q => q.is_active)).length ≠ 1)
    (horder : g.current_turn_order.length ≠ 0) :
    (fold_player g n).2 = .ok .folded := by
  unfold fold_player
  split
  · rename_i hnone
    rw [hfind] at hnone
    cases hnone
  · rename_i q hq
    rw [hfind] at hq
    injection hq with hq2
    subst hq2
    rw [if_neg (by simp [hpact])]
    split
    · rename_i w hfil
      rw [hfil] at hlen
      simp at hlen
    · split
      · rename_i h0
        exact absurd h0 horder
      · rfl

/-- C10: fold never checks whose turn it is: in an active game with more
than two active players, a fold from any known active player succeeds even
when that player is not at `turn_order[turn_index]`, and still advances
`turn_index` by one — silently consuming the turn position. -/
theorem C10_out_of_turn_fold (g : Game) (n : String) (p : Player)
    (_hact : g.is_active = true)
    (hfind : findPlayer g n = some p) (hpact : p.is_active = true)
    (hcount : 3 ≤ (g.players.filter (fun q => q.is_active)).length)
    (horder : g.current_turn_order.length ≠ 0)
    (_hturn : g.current_turn_order[g.current_turn_index]? ≠ some n) :
    (fold_player g n).2 = .ok .folded ∧
    (fold_player g n).1.current_turn_index =
      (g.current_turn_index + 1) % g.current_turn_order.length := by
  have hflen := filter_updateFirst_fold n g.players p hfind hpact
  have hne1 : ((updateFirst (fun q => q.name == n) Player.fold
      g.players).filter (fun q => q.is_active)).length ≠ 1 := by
    omega
  have hfolded := fold_player_folded_of g n p hfind hpact hne1 horder
  obtain ⟨hstate, _⟩ := fold_player_folded_state g n hfolded
  refine ⟨hfolded, ?_⟩
  rw [hstate]

/-- The three-player witness game: "A", "B", "C" joined and started; the
turn is at "A" (index 0). -/
def gT3 : Game := run emptyGame [Cmd.join "A" [], Cmd.join "B" [],
  Cmd.join "C" [], Cmd.start_and_play id]

/-- The dealt hand of player "B" in the three-player witness game. -/
def pT3_B : Player :=
  { name := "B",
    cards := [Card.mk .rQ .spades "Q of spades",
              Card.mk .rJ .spades "J of spades"] }

theorem C10_out_of_turn_fold_witness :
    (fold_player gT3 "B").2 = .ok .folded ∧
    (fold_player gT3 "B").1.current_turn_index =
      (gT3.current_turn_index + 1) % gT3.current_turn_order.length :=
  C10_out_of_turn_fold gT3 "B" pT3_B (by decide) (by decide) (by decide)
    (by decide) (by decide) (by decide)
